import Mathlib

/-!
Shallow embedding of the hummingbot sources under verification:
* `hummingbot/connector/exchange/upbit/upbit_utils.py`
* `hummingbot/market/binance_perpetual/binance_perpetual_user_stream_data_source.py`
together with a spec-modelled fragment of the order tracker (`process_stream_event`),
whose implementation is not part of the sources.
-/

namespace Hummingbot

/-! ## upbit_utils.is_exchange_information_valid

The Python function reads two keys of a dictionary with `.get` defaults:
`exchange_info.get("status", None) == "TRADING" and
 "SPOT" in exchange_info.get("permissions", list())`.
We embed the relevant projection of the dictionary: the value at `"status"`
(a string when present) and the value at `"permissions"` (a list of strings
when present); an absent key is `none`, matching the `.get` default. -/

structure ExchangeInfo where
  status : Option String
  permissions : Option (List String)
deriving DecidableEq

def is_exchange_information_valid (exchange_info : ExchangeInfo) : Bool :=
  (exchange_info.status == some "TRADING")
    && ((exchange_info.permissions.getD []).contains "SPOT")

/-! ## Effect traces of the two REST helpers (rate-limit gating)

`get_listen_key` opens an aiohttp session and issues a single POST to the
listen-key endpoint; `ping_listen_key` issues a single PUT.  Neither function
touches any throttler / rate-limiter object.  We record the observable
outbound effects each coroutine performs, in program order; a rate-limit
acquisition would appear as `rateLimitAcquire`. -/

def BINANCE_USER_STREAM_ENDPOINT : String := "https://fapi.binance.com/fapi/v1/listenKey"

inductive Eff where
  | rateLimitAcquire : Eff
  | httpPost (url : String) : Eff
  | httpPut (url : String) : Eff
deriving DecidableEq

def isRestCall : Eff → Bool
  | .httpPost _ => true
  | .httpPut _ => true
  | .rateLimitAcquire => false

/-- Effect trace of `get_listen_key` (source lines 38-47): one ungated POST. -/
def get_listen_key_effects : List Eff := [.httpPost BINANCE_USER_STREAM_ENDPOINT]

/-- Effect trace of `ping_listen_key` (source lines 49-58): one ungated PUT. -/
def ping_listen_key_effects : List Eff := [.httpPut BINANCE_USER_STREAM_ENDPOINT]

/-- A trace is rate-gated when every REST call is preceded by at least one
rate-limit acquisition earlier in the trace. -/
def gatedFrom (seen : Bool) : List Eff → Bool
  | [] => true
  | e :: rest =>
    match e with
    | .rateLimitAcquire => gatedFrom true rest
    | _ => seen && gatedFrom seen rest

def rateGated (tr : List Eff) : Bool := gatedFrom false tr

/-- The result of `ping_listen_key` (source lines 54-58): the coroutine returns
`False` exactly when the JSON response carries a `"code"` field, `True`
otherwise. -/
def ping_listen_key_result (responseKeys : List String) : Bool :=
  !(responseKeys.contains "code")

/-! ## The session-manager object state and `listen_for_user_stream`

Object state of `BinancePerpetualUserStreamDataSource`: the fields written by
`__init__` and mutated by `listen_for_user_stream` / its `finally` block.
Listen keys and task objects are modelled by identifiers drawn from fresh
counters; `activeTasks` records the tasks created by `safe_ensure_future`
and not yet cancelled (the Python object only stores the latest one in
`_listen_for_user_stream_task`). -/

structure DSState where
  currentListenKey : Option Nat
  streamTask : Option Nat
  lastRecvTime : Nat
  activeTasks : List Nat
  nextKeyId : Nat
  nextTaskId : Nat
deriving DecidableEq

/-- `__init__` (source lines 31-36): both references `None`, `_last_recv_time = 0`. -/
def initState : DSState :=
  { currentListenKey := none, streamTask := none, lastRecvTime := 0,
    activeTasks := [], nextKeyId := 0, nextTaskId := 0 }

def cancelTask (tasks : List Nat) : Option Nat → List Nat
  | none => tasks
  | some t => tasks.erase t

/-- Source lines 100-104: `_current_listen_key = await self.get_listen_key()`;
if a previous task exists it is cancelled first; then
`_listen_for_user_stream_task = safe_ensure_future(self.log_user_stream(output))`. -/
def acquireKeyAndStartTask (s : DSState) : DSState :=
  { s with currentListenKey := some s.nextKeyId,
           nextKeyId := s.nextKeyId + 1,
           activeTasks := cancelTask s.activeTasks s.streamTask ++ [s.nextTaskId],
           streamTask := some s.nextTaskId,
           nextTaskId := s.nextTaskId + 1 }

/-- Source lines 107-112 (`if not success:` branch): the listen key is dropped,
the stream task is cancelled and the reference cleared, then `continue`. -/
def discardKeyAndCancelTask (s : DSState) : DSState :=
  { s with currentListenKey := none,
           activeTasks := cancelTask s.activeTasks s.streamTask,
           streamTask := none }

/-- Outcome of the `await self.get_listen_key()` call: a fresh key, or an
exception (caught by the `except Exception` handler at line 117). -/
inductive GetKeyRes where
  | ok : GetKeyRes
  | err : GetKeyRes
deriving DecidableEq

/-- Outcome of the `await self.ping_listen_key(...)` call: `True`, `False`,
or an exception. -/
inductive PingRes where
  | ok : PingRes
  | fail : PingRes
  | err : PingRes
deriving DecidableEq

/-- One iteration of the `while True` body of `listen_for_user_stream`
(source lines 98-120).  When the key is absent the iteration first acquires a
key and starts the stream task (lines 99-105) — unless `get_listen_key`
raises, in which case the handler at line 117 leaves the state unchanged and
sleeps.  Afterwards the iteration pings the key (line 106): `False` runs the
discard branch, an exception is absorbed by the handler, `True` leaves the
state unchanged. -/
def listenIter (s : DSState) (g : GetKeyRes) (p : PingRes) : DSState :=
  match s.currentListenKey with
  | none =>
    match g with
    | .err => s
    | .ok =>
      let s1 := acquireKeyAndStartTask s
      match p with
      | .fail => discardKeyAndCancelTask s1
      | _ => s1
  | some _ =>
    match p with
    | .fail => discardKeyAndCancelTask s
    | _ => s

/-- The `finally` block of `listen_for_user_stream` (source lines 121-125):
cancel and clear the stream task, clear the listen key. -/
def shutdownFinally (s : DSState) : DSState :=
  { s with activeTasks := cancelTask s.activeTasks s.streamTask,
           streamTask := none,
           currentListenKey := none }

/-- States of the object reachable through `listen_for_user_stream`. -/
inductive Reachable : DSState → Prop
  | init : Reachable initState
  | step (s : DSState) (g : GetKeyRes) (p : PingRes) :
      Reachable s → Reachable (listenIter s g p)
  | shutdown (s : DSState) : Reachable s → Reachable (shutdownFinally s)

/-- Invariant of the object state: the set of live tasks is exactly the one
stored in `_listen_for_user_stream_task`, stored identifiers are fresh
relative to the counters, and `_last_recv_time` is never written. -/
structure Inv (s : DSState) : Prop where
  tasks : s.activeTasks = s.streamTask.toList
  keyFresh : ∀ k, s.currentListenKey = some k → k < s.nextKeyId
  taskFresh : ∀ t, s.streamTask = some t → t < s.nextTaskId
  recv : s.lastRecvTime = 0

theorem inv_init : Inv initState := by
  refine ⟨rfl, ?_, ?_, rfl⟩ <;> intro x hx <;> simp [initState] at hx

theorem inv_acquire {s : DSState} (h : Inv s) : Inv (acquireKeyAndStartTask s) := by
  refine ⟨?_, ?_, ?_, h.recv⟩
  · have ht := h.tasks
    cases hs : s.streamTask with
    | none => simp [acquireKeyAndStartTask, cancelTask, ht, hs]
    | some t => simp [acquireKeyAndStartTask, cancelTask, ht, hs]
  · intro k hk
    simp only [acquireKeyAndStartTask, Option.some.injEq] at hk
    simp only [acquireKeyAndStartTask]
    omega
  · intro t ht
    simp only [acquireKeyAndStartTask, Option.some.injEq] at ht
    simp only [acquireKeyAndStartTask]
    omega

theorem inv_discard {s : DSState} (h : Inv s) : Inv (discardKeyAndCancelTask s) := by
  refine ⟨?_, ?_, ?_, h.recv⟩
  · have ht := h.tasks
    cases hs : s.streamTask with
    | none => simp [discardKeyAndCancelTask, cancelTask, ht, hs]
    | some t => simp [discardKeyAndCancelTask, cancelTask, ht, hs]
  · intro k hk
    simp [discardKeyAndCancelTask] at hk
  · intro t ht
    simp [discardKeyAndCancelTask] at ht

theorem inv_shutdown {s : DSState} (h : Inv s) : Inv (shutdownFinally s) := by
  refine ⟨?_, ?_, ?_, h.recv⟩
  · have ht := h.tasks
    cases hs : s.streamTask with
    | none => simp [shutdownFinally, cancelTask, ht, hs]
    | some t => simp [shutdownFinally, cancelTask, ht, hs]
  · intro k hk
    simp [shutdownFinally] at hk
  · intro t ht
    simp [shutdownFinally] at ht

theorem inv_iter {s : DSState} (h : Inv s) (g : GetKeyRes) (p : PingRes) :
    Inv (listenIter s g p) := by
  unfold listenIter
  cases hs : s.currentListenKey with
  | none =>
    cases g with
    | err => exact h
    | ok =>
      cases p with
      | fail => exact inv_discard (inv_acquire h)
      | ok => exact inv_acquire h
      | err => exact inv_acquire h
  | some k =>
    cases p with
    | fail => exact inv_discard h
    | ok => exact h
    | err => exact h

theorem reachable_inv {s : DSState} (h : Reachable s) : Inv s := by
  induction h with
  | init => exact inv_init
  | step s g p _ ih => exact inv_iter ih g p
  | shutdown s _ ih => exact inv_shutdown ih

/-- The states the coroutine body of `listen_for_user_stream` holds at its
`await` suspension points during one iteration, where an injected
`asyncio.CancelledError` can interrupt it: line 100 (`get_listen_key`) at the
entry state; lines 105/106 (`wait_til_next_tick` after starting the task, and
the ping) at the post-acquisition state when the acquisition ran; lines
106/114/120 (ping, tick wait, and the 5-second backoff sleep) at the entry or
resulting state.  Cancellation re-raises (line 116) and the `finally` block
then runs on whatever state was current. -/
def awaitPoints (s : DSState) (g : GetKeyRes) (p : PingRes) : List DSState :=
  [s] ++
    (match s.currentListenKey, g with
     | none, .ok => [acquireKeyAndStartTask s]
     | _, _ => []) ++
    [listenIter s g p]

/-- The property of `last_recv_time` (source lines 27-29). -/
def last_recv_time (s : DSState) : Nat := s.lastRecvTime

/-! ## `ws_messages` (source lines 60-78)

The generator is driven by a script of receive outcomes: a message arrives
within the 30-second `asyncio.wait_for` window; the receive times out and the
keepalive ping is answered within its 10-second window; the receive times out
and the pong also times out (the inner handler re-raises, the outer handler
logs and returns); or the connection closes.  The run records the yielded
messages, the number of keepalive pings sent, the exit cause, and whether
`client.close()` ran (the `finally` block, executed on every return path;
while the generator is merely suspended waiting for events the socket is
still open). -/

inductive WsEvent where
  | msg (s : String) : WsEvent
  | recvTimeoutPongOk : WsEvent
  | recvTimeoutPongLost : WsEvent
  | connClosed : WsEvent
deriving DecidableEq

inductive WsExit where
  | pongTimeout : WsExit
  | connectionClosed : WsExit
deriving DecidableEq

structure WsRun where
  yielded : List String
  pingsSent : Nat
  exitBy : Option WsExit
  closed : Bool
deriving DecidableEq

def ws_messages : List WsEvent → WsRun
  | [] => { yielded := [], pingsSent := 0, exitBy := none, closed := false }
  | .msg m :: rest =>
    let r := ws_messages rest
    { r with yielded := m :: r.yielded }
  | .recvTimeoutPongOk :: rest =>
    let r := ws_messages rest
    { r with pingsSent := r.pingsSent + 1 }
  | .recvTimeoutPongLost :: _ =>
    { yielded := [], pingsSent := 1, exitBy := some .pongTimeout, closed := true }
  | .connClosed :: _ =>
    { yielded := [], pingsSent := 0, exitBy := some .connectionClosed, closed := true }

def msgsOf : List WsEvent → List String
  | [] => []
  | .msg m :: rest => m :: msgsOf rest
  | _ :: rest => msgsOf rest

def pingsOf : List WsEvent → Nat
  | [] => 0
  | .recvTimeoutPongOk :: rest => pingsOf rest + 1
  | _ :: rest => pingsOf rest

/-! ## The output queue and `log_user_stream` (source lines 80-93)

`output` is an `asyncio.Queue`; `maxsize = 0` means unbounded (the asyncio
default), otherwise the queue is full when it holds `maxsize` items.  The
loop body delivers each message with `output.put_nowait(msg_json)` (line 88):
`put_nowait` appends when the queue is not full and raises `QueueFull`
otherwise — it never suspends the caller.  `put_blocking` is the semantics of
the alternative coroutine `asyncio.Queue.put`, which the source does not use. -/

structure BQueue where
  maxsize : Nat
  items : List String
deriving DecidableEq

def qFull (q : BQueue) : Bool := decide (0 < q.maxsize ∧ q.maxsize ≤ q.items.length)

inductive PutOutcome where
  | enqueued (q : BQueue) : PutOutcome
  | raisedQueueFull : PutOutcome
  | blockedProducer : PutOutcome
deriving DecidableEq

def put_nowait (q : BQueue) (m : String) : PutOutcome :=
  if qFull q then .raisedQueueFull
  else .enqueued { q with items := q.items ++ [m] }

def put_blocking (q : BQueue) (m : String) : PutOutcome :=
  if qFull q then .blockedProducer
  else .enqueued { q with items := q.items ++ [m] }

/-- Message delivery performed by `log_user_stream` (source line 88). -/
def log_user_stream_deliver (q : BQueue) (m : String) : PutOutcome := put_nowait q m

/-! ## Retry behaviour of the reconnection loops

Both loops back off with a fixed `await asyncio.sleep(5)`:
`log_user_stream` line 93 and `listen_for_user_stream` line 120.  The delay
before reconnection attempt `k` therefore does not depend on `k`. -/

def streamRetryDelaySeconds : Nat := 5

def keyRetryDelaySeconds : Nat := 5

/-- Delay (seconds) slept before reconnection attempt `attempt` of
`log_user_stream`: the source sleeps the same 5 seconds after every failure. -/
def streamRetryDelay (_attempt : Nat) : Nat := streamRetryDelaySeconds

/-- The backoff shape asserted by the spec: delays follow a geometric
ramp-up (base at least 2) from a positive initial delay, truncated at a cap
strictly above the initial delay. -/
def growsExponentiallyToCap (delay : Nat → Nat) : Prop :=
  ∃ base d0 cap, 2 ≤ base ∧ 1 ≤ d0 ∧ d0 < cap ∧
    ∀ k, delay k = min (d0 * base ^ k) cap

/-- Outcome of one connection attempt of the `while True` loop of
`log_user_stream`: the attempt fails with a non-cancellation exception
(caught at line 91, sleep 5, retry), or the task is cancelled
(re-raised at line 90). -/
inductive AttemptOutcome where
  | failure : AttemptOutcome
  | cancelled : AttemptOutcome
deriving DecidableEq

structure LoopTrace where
  attempts : Nat
  delays : List Nat
  raisedCancelled : Bool
deriving DecidableEq

/-- Run of the `log_user_stream` loop over a script of attempt outcomes: a
failure is absorbed and followed by the fixed backoff sleep; cancellation is
re-raised and terminates the loop; with the script exhausted the loop is
still live. -/
def logStreamLoop : List AttemptOutcome → LoopTrace
  | [] => { attempts := 0, delays := [], raisedCancelled := false }
  | .failure :: rest =>
    let t := logStreamLoop rest
    { attempts := t.attempts + 1, delays := streamRetryDelaySeconds :: t.delays,
      raisedCancelled := t.raisedCancelled }
  | .cancelled :: _ => { attempts := 1, delays := [], raisedCancelled := true }

/-! ## Order tracker: `process_stream_event` (spec-modelled) -/

inductive OrderStatus where
  | pendingCreate : OrderStatus
  | opened : OrderStatus
  | partiallyFilled : OrderStatus
  | pendingCancel : OrderStatus
  | filled : OrderStatus
  | canceled : OrderStatus
  | failed : OrderStatus
deriving DecidableEq

/-- Lifecycle-progress ordering of the spec:
`PENDING_CREATE < OPEN < PARTIALLY_FILLED < FILLED/CANCELED/FAILED`, with
`PENDING_CANCEL` between `PARTIALLY_FILLED` and the terminal states. -/
def statusRank : OrderStatus → Nat
  | .pendingCreate => 0
  | .opened => 1
  | .partiallyFilled => 2
  | .pendingCancel => 3
  | .filled => 4
  | .canceled => 4
  | .failed => 4

structure TrackedOrder where
  status : OrderStatus
  trades : List (Nat × Nat)
  requestedAmount : Nat
deriving DecidableEq

def tradeIds (o : TrackedOrder) : List Nat := o.trades.map Prod.fst

def filledAmount (o : TrackedOrder) : Nat := (o.trades.map Prod.snd).sum

inductive StreamEvent where
  | statusChange (s : OrderStatus) : StreamEvent
  | fill (tradeId : Nat) (amount : Nat) : StreamEvent
deriving DecidableEq

/-- Modelled from the spec: the Order Tracker's `process_stream_event` is not
among the source files (only an exchange-connector test touches order fills),
so it is taken from spec sections 4.3 and 8: a status event applies only when
it is strictly more lifecycle progress than the current state; a fill whose
trade id is already in the per-order trade set is ignored; a new trade is
added to the set, the cumulative fill is the sum over the deduplicated set,
and the status advances to `FILLED` when the requested amount is reached and
otherwise at least to `PARTIALLY_FILLED`.  The returned flag is `true` when a
change notification is emitted and `false` on a no-op. -/
def process_stream_event (o : TrackedOrder) (e : StreamEvent) : TrackedOrder × Bool :=
  match e with
  | .statusChange s =>
    if statusRank o.status < statusRank s then ({ o with status := s }, true)
    else (o, false)
  | .fill tid amt =>
    if tid ∈ tradeIds o then (o, false)
    else
      let trades1 := o.trades ++ [(tid, amt)]
      let filled1 := (trades1.map Prod.snd).sum
      let status1 :=
        if o.requestedAmount ≤ filled1 then OrderStatus.filled
        else if statusRank o.status < statusRank .partiallyFilled then .partiallyFilled
        else o.status
      ({ o with trades := trades1, status := status1 }, true)

/-! ## Timeout constants of `ws_messages` -/

/-- Receive window of `asyncio.wait_for(client.recv(), timeout=30.0)` (line 64). -/
def wsRecvTimeoutSeconds : Nat := 30

/-- Pong window of `asyncio.wait_for(pong_waiter, timeout=10.0)` (line 69). -/
def wsPongTimeoutSeconds : Nat := 10

/-! ## Claim theorems -/

/-- Claim C9: `is_exchange_information_valid` returns `True` exactly when the
dictionary maps `"status"` to `"TRADING"` and `"SPOT"` occurs in the list
mapped by `"permissions"`; an absent `"status"` or `"permissions"` key yields
`False` (the `.get` defaults), never an exception. -/
theorem is_exchange_information_valid_iff (e : ExchangeInfo) :
    (is_exchange_information_valid e = true ↔
      e.status = some "TRADING" ∧ "SPOT" ∈ e.permissions.getD []) ∧
    (e.status = none → is_exchange_information_valid e = false) ∧
    (e.permissions = none → is_exchange_information_valid e = false) := by
  refine ⟨?_, ?_, ?_⟩
  · simp [is_exchange_information_valid]
  · intro h
    simp [is_exchange_information_valid, h]
  · intro h
    simp [is_exchange_information_valid, h]

/-- Witness for C9 at concrete dictionaries. -/
theorem is_exchange_information_valid_iff_witness :
    is_exchange_information_valid ⟨some "TRADING", some ["SPOT", "MARGIN"]⟩ = true ∧
    is_exchange_information_valid ⟨none, some ["SPOT"]⟩ = false ∧
    is_exchange_information_valid ⟨some "TRADING", none⟩ = false := by
  refine ⟨?_, ?_, ?_⟩
  · exact (is_exchange_information_valid_iff ⟨some "TRADING", some ["SPOT", "MARGIN"]⟩).1.mpr
      ⟨rfl, by simp⟩
  · exact (is_exchange_information_valid_iff ⟨none, some ["SPOT"]⟩).2.1 rfl
  · exact (is_exchange_information_valid_iff ⟨some "TRADING", none⟩).2.2 rfl

/-- Claim C3 counterexample: both REST helpers issue a REST call, yet neither
trace is rate-gated — no rate-limit acquisition precedes the dispatch. -/
theorem rest_calls_bypass_rate_governor :
    get_listen_key_effects.any isRestCall = true ∧
    ping_listen_key_effects.any isRestCall = true ∧
    rateGated get_listen_key_effects = false ∧
    rateGated ping_listen_key_effects = false :=
  ⟨rfl, rfl, rfl, rfl⟩

/-- Claim C3 (amended): the REST requests of `get_listen_key` and
`ping_listen_key` are dispatched directly through a fresh aiohttp session;
their effect traces consist solely of the REST call and contain no rate-limit
acquisition at all. -/
theorem rest_effects_have_no_rate_acquire :
    get_listen_key_effects.all isRestCall = true ∧
    ping_listen_key_effects.all isRestCall = true ∧
    Eff.rateLimitAcquire ∉ get_listen_key_effects ∧
    Eff.rateLimitAcquire ∉ ping_listen_key_effects := by
  refine ⟨rfl, rfl, ?_, ?_⟩ <;> decide

/-- Claim C7 counterexample: with a bounded queue at capacity, the delivery
step of `log_user_stream` (`put_nowait`) raises `QueueFull`; it does not
block the producer. -/
theorem put_nowait_raises_when_full :
    qFull ⟨1, ["m0"]⟩ = true ∧
    log_user_stream_deliver ⟨1, ["m0"]⟩ "m1" = PutOutcome.raisedQueueFull ∧
    log_user_stream_deliver ⟨1, ["m0"]⟩ "m1" ≠ PutOutcome.blockedProducer := by
  refine ⟨rfl, rfl, ?_⟩
  decide

/-- Claim C7 (amended): `log_user_stream` delivers each received message with
the non-blocking `put_nowait`: when the queue is not full (in particular
always, for the unbounded default) the message is appended; when a bounded
queue is at capacity, `QueueFull` is raised (and the surrounding generic
handler drops the message and reconnects after the retry sleep).  The
producer never blocks. -/
theorem deliver_never_blocks (q : BQueue) (m : String) :
    log_user_stream_deliver q m = put_nowait q m ∧
    log_user_stream_deliver q m =
      (if qFull q then PutOutcome.raisedQueueFull
       else .enqueued { q with items := q.items ++ [m] }) ∧
    log_user_stream_deliver q m ≠ PutOutcome.blockedProducer := by
  refine ⟨rfl, rfl, ?_⟩
  simp only [log_user_stream_deliver, put_nowait]
  split <;> simp

/-- Claim C2 counterexample: the reconnection delay of the stream-reading
loop is the constant `sleep(5)`; it does not follow any capped exponential
ramp-up in the attempt index (and, being a constant, carries no jitter). -/
theorem retryDelay_not_exponential : ¬ growsExponentiallyToCap streamRetryDelay := by
  rintro ⟨base, d0, cap, hb, hd0, hdc, h⟩
  have h0 := h 0
  have h1 := h 1
  simp [streamRetryDelay, streamRetryDelaySeconds, pow_zero, pow_one, Nat.mul_one] at h0 h1
  have hmul : d0 * 2 ≤ d0 * base := Nat.mul_le_mul_left d0 hb
  omega

theorem logStreamLoop_replicate (n : Nat) :
    logStreamLoop (List.replicate n .failure) =
      { attempts := n, delays := List.replicate n streamRetryDelaySeconds,
        raisedCancelled := false } := by
  induction n with
  | zero => rfl
  | succ k ih => simp [List.replicate_succ, logStreamLoop, ih]

theorem logStreamLoop_cancel_iff (script : List AttemptOutcome) :
    (logStreamLoop script).raisedCancelled = true ↔ AttemptOutcome.cancelled ∈ script := by
  induction script with
  | nil => simp [logStreamLoop]
  | cons a rest ih =>
    cases a with
    | failure => simp [logStreamLoop, ih]
    | cancelled => simp [logStreamLoop]

/-- Claim C2 (amended): after any number `n` of consecutive connection
failures the loop of `log_user_stream` has slept the same fixed 5-second
delay before each retry (trivially non-decreasing and capped, but neither
exponentially growing nor jittered), attempt `n + 1` still occurs, and no
failure terminates the loop — the loop raises only when cancelled; the
key-maintenance loop sleeps the same fixed 5 seconds on failure. -/
theorem retry_constant_delay_never_fatal (n : Nat) (script : List AttemptOutcome) :
    (logStreamLoop (List.replicate n .failure)).raisedCancelled = false ∧
    (logStreamLoop (List.replicate n .failure)).delays =
      List.replicate n streamRetryDelaySeconds ∧
    (logStreamLoop (List.replicate (n + 1) .failure)).attempts = n + 1 ∧
    (∀ k, streamRetryDelay k = 5) ∧
    keyRetryDelaySeconds = 5 ∧
    ((logStreamLoop script).raisedCancelled = true ↔
      AttemptOutcome.cancelled ∈ script) := by
  refine ⟨?_, ?_, ?_, fun _ => rfl, rfl, logStreamLoop_cancel_iff script⟩
  · simp [logStreamLoop_replicate]
  · simp [logStreamLoop_replicate]
  · simp [logStreamLoop_replicate]

/-- Claim C8: `process_stream_event` is idempotent — replaying any event
immediately after it was applied leaves the order (state, trade set, and so
cumulative filled amount) unchanged and emits no second notification. -/
theorem process_stream_event_idempotent (o : TrackedOrder) (e : StreamEvent) :
    process_stream_event (process_stream_event o e).1 e =
      ((process_stream_event o e).1, false) := by
  cases e with
  | statusChange s =>
    by_cases h : statusRank o.status < statusRank s
    · simp [process_stream_event, h]
    · simp [process_stream_event, h]
  | fill tid amt =>
    by_cases h : tid ∈ tradeIds o
    · simp [process_stream_event, h]
    · have h' : tid ∉ List.map Prod.fst o.trades := h
      have hmem : tid ∈ List.map Prod.fst (o.trades ++ [(tid, amt)]) := by simp
      simp [process_stream_event, tradeIds, h', hmem]

/-- Claim C10: in every reachable state of the data source the
`last_recv_time` property returns 0 — `_last_recv_time` is set to 0 by
`__init__` and no operation of the class writes it again (in the embedding,
`ws_messages` and `log_user_stream` act only on the websocket script and the
output queue, never on the object state, and no loop transition touches
`lastRecvTime`). -/
theorem last_recv_time_always_zero (s : DSState) (h : Reachable s) :
    last_recv_time s = 0 :=
  (reachable_inv h).recv

/-- Witness for C10 at a concrete reachable state. -/
theorem last_recv_time_always_zero_witness :
    last_recv_time (listenIter initState .ok .ok) = 0 :=
  last_recv_time_always_zero (listenIter initState .ok .ok)
    (Reachable.step initState .ok .ok Reachable.init)

/-- Claim C4: in every reachable state there is at most one live
stream-reading task, the acquisition step cancels the previously stored task
before the new one is live (afterwards exactly the fresh task runs), and the
`finally` block leaves no task and no credential. -/
theorem at_most_one_stream_task (s : DSState) (h : Reachable s) :
    s.activeTasks.length ≤ 1 ∧
    (∀ t, s.streamTask = some t →
      t ∉ (acquireKeyAndStartTask s).activeTasks ∧
      (acquireKeyAndStartTask s).activeTasks = [s.nextTaskId]) ∧
    (shutdownFinally s).streamTask = none ∧
    (shutdownFinally s).currentListenKey = none ∧
    (shutdownFinally s).activeTasks = [] := by
  have hi := reachable_inv h
  refine ⟨?_, ?_, rfl, rfl, ?_⟩
  · rw [hi.tasks]
    cases s.streamTask <;> simp
  · intro t ht
    have hfresh := hi.taskFresh t ht
    have hacq : (acquireKeyAndStartTask s).activeTasks = [s.nextTaskId] := by
      simp [acquireKeyAndStartTask, cancelTask, hi.tasks, ht]
    refine ⟨?_, hacq⟩
    rw [hacq]
    simp
    omega
  · have ht := hi.tasks
    cases hs : s.streamTask with
    | none => rw [hs] at ht; simp [shutdownFinally, cancelTask, ht, hs]
    | some t => rw [hs] at ht; simp [shutdownFinally, cancelTask, ht, hs]

/-- Witness for C4 at a concrete reachable state holding a live task. -/
theorem at_most_one_stream_task_witness :
    (listenIter initState .ok .ok).activeTasks.length ≤ 1 ∧
    (acquireKeyAndStartTask (listenIter initState .ok .ok)).activeTasks = [1] ∧
    (shutdownFinally (listenIter initState .ok .ok)).activeTasks = [] := by
  have h := at_most_one_stream_task (listenIter initState .ok .ok)
    (Reachable.step initState .ok .ok Reachable.init)
  exact ⟨h.1, (h.2.1 0 rfl).2, h.2.2.2.2⟩

/-- Claim C1: when the periodic `ping_listen_key` returns `False`, the
iteration clears `_current_listen_key`, cancels the stream task (none is left
live), and the next iteration in which `get_listen_key` succeeds installs a
listen key that differs from the stale one and only then starts a fresh
stream task — the stale key is never streamed from again. -/
theorem ping_failure_discards_and_renews
    (s : DSState) (hr : Reachable s) (k t : Nat)
    (hk : s.currentListenKey = some k) (ht : s.streamTask = some t)
    (g : GetKeyRes) (p2 : PingRes) (hp2 : p2 ≠ PingRes.fail) :
    (listenIter s g .fail).currentListenKey = none ∧
    (listenIter s g .fail).streamTask = none ∧
    (listenIter s g .fail).activeTasks = [] ∧
    (listenIter (listenIter s g .fail) .ok p2).currentListenKey =
      some (listenIter s g .fail).nextKeyId ∧
    (listenIter s g .fail).nextKeyId ≠ k ∧
    (listenIter (listenIter s g .fail) .ok p2).streamTask =
      some (listenIter s g .fail).nextTaskId ∧
    (listenIter (listenIter s g .fail) .ok p2).activeTasks =
      [(listenIter s g .fail).nextTaskId] := by
  have hi := reachable_inv hr
  have hs1 : listenIter s g .fail = discardKeyAndCancelTask s := by
    simp [listenIter, hk]
  have htasks : (discardKeyAndCancelTask s).activeTasks = [] := by
    have h0 := hi.tasks
    rw [ht] at h0
    simp [discardKeyAndCancelTask, cancelTask, h0, ht]
  have hs2 : listenIter (discardKeyAndCancelTask s) .ok p2 =
      acquireKeyAndStartTask (discardKeyAndCancelTask s) := by
    cases p2 with
    | fail => exact absurd rfl hp2
    | ok => simp [listenIter, discardKeyAndCancelTask]
    | err => simp [listenIter, discardKeyAndCancelTask]
  have hkey : k < s.nextKeyId := hi.keyFresh k hk
  rw [hs1, hs2]
  refine ⟨rfl, rfl, htasks, rfl, ?_, rfl, ?_⟩
  · have : (discardKeyAndCancelTask s).nextKeyId = s.nextKeyId := rfl
    omega
  · have h0 := hi.tasks
    rw [ht] at h0
    simp [acquireKeyAndStartTask, cancelTask, discardKeyAndCancelTask, ht, h0]

/-- Witness for C1 at a concrete reachable state. -/
theorem ping_failure_discards_and_renews_witness :
    (listenIter (listenIter initState .ok .ok) .ok .fail).currentListenKey = none ∧
    (listenIter (listenIter initState .ok .ok) .ok .fail).streamTask = none ∧
    (listenIter (listenIter (listenIter initState .ok .ok) .ok .fail) .ok .ok).currentListenKey
      = some 1 := by
  have h := ping_failure_discards_and_renews (listenIter initState .ok .ok)
    (Reachable.step initState .ok .ok Reachable.init) 0 0 rfl rfl .ok .ok (by decide)
  exact ⟨h.1, h.2.1, h.2.2.2.1⟩

theorem inv_await {s : DSState} (h : Inv s) (g : GetKeyRes) (p : PingRes) :
    ∀ m ∈ awaitPoints s g p, Inv m := by
  intro m hm
  unfold awaitPoints at hm
  cases hsk : s.currentListenKey with
  | none =>
    cases g with
    | ok =>
      rw [hsk] at hm
      simp at hm
      rcases hm with rfl | rfl | rfl
      · exact h
      · exact inv_acquire h
      · exact inv_iter h _ _
    | err =>
      rw [hsk] at hm
      simp at hm
      rcases hm with rfl | rfl
      · exact h
      · exact inv_iter h _ _
  | some k =>
    rw [hsk] at hm
    simp at hm
    rcases hm with rfl | rfl
    · exact h
    · exact inv_iter h _ _

/-- Claim C6: wherever in an iteration of `listen_for_user_stream` a
cancellation lands — at the `get_listen_key` await, the post-acquisition tick
wait or ping, or the retry-backoff sleep — running the `finally` block on the
state held at that await point cancels the stream task, clears its reference
and releases the listen key. -/
theorem cancellation_finally_cleans_up
    (s : DSState) (hr : Reachable s) (g : GetKeyRes) (p : PingRes) :
    ∀ m ∈ awaitPoints s g p,
      (shutdownFinally m).streamTask = none ∧
      (shutdownFinally m).currentListenKey = none ∧
      (shutdownFinally m).activeTasks = [] := by
  intro m hm
  have him := inv_await (reachable_inv hr) g p m hm
  refine ⟨rfl, rfl, ?_⟩
  have := (inv_shutdown him).tasks
  simpa [shutdownFinally] using this

/-- Witness for C6: cancellation at the tick-wait await right after a task
was started. -/
theorem cancellation_finally_cleans_up_witness :
    (shutdownFinally (acquireKeyAndStartTask initState)).streamTask = none ∧
    (shutdownFinally (acquireKeyAndStartTask initState)).currentListenKey = none ∧
    (shutdownFinally (acquireKeyAndStartTask initState)).activeTasks = [] :=
  cancellation_finally_cleans_up initState Reachable.init .ok .ok
    (acquireKeyAndStartTask initState) (by decide)

/-- Claim C5: while messages or answered keepalives keep arriving the
generator keeps yielding; each 30-second receive timeout issues a ping; the
first unanswered ping (10-second pong timeout) ends the generator — nothing
after it is yielded — and the websocket client is closed; on every exit path
(`exitBy` set) the client has been closed. -/
theorem ws_messages_keepalive_and_close
    (pre post : List WsEvent)
    (hpre : ∀ e ∈ pre, e = WsEvent.recvTimeoutPongOk ∨ ∃ m, e = WsEvent.msg m) :
    ws_messages (pre ++ WsEvent.recvTimeoutPongLost :: post) =
      { yielded := msgsOf pre, pingsSent := pingsOf pre + 1,
        exitBy := some WsExit.pongTimeout, closed := true } ∧
    wsRecvTimeoutSeconds = 30 ∧ wsPongTimeoutSeconds = 10 ∧
    (∀ evs : List WsEvent, (ws_messages evs).exitBy.isSome = true →
      (ws_messages evs).closed = true) := by
  refine ⟨?_, rfl, rfl, ?_⟩
  · induction pre with
    | nil => rfl
    | cons a rest ih =>
      have ha := hpre a (List.mem_cons_self a rest)
      have hrest : ∀ e ∈ rest, e = WsEvent.recvTimeoutPongOk ∨ ∃ m, e = WsEvent.msg m :=
        fun e he => hpre e (List.mem_cons_of_mem a he)
      rcases ha with rfl | ⟨m, rfl⟩
      · simp [ws_messages, msgsOf, pingsOf, ih hrest]
      · simp [ws_messages, msgsOf, pingsOf, ih hrest]
  · intro evs
    induction evs with
    | nil => intro hx; simp [ws_messages] at hx
    | cons a rest ih =>
      cases a with
      | msg m => intro hx; simp [ws_messages] at hx ⊢; exact ih hx
      | recvTimeoutPongOk => intro hx; simp [ws_messages] at hx ⊢; exact ih hx
      | recvTimeoutPongLost => intro hx; rfl
      | connClosed => intro hx; rfl

/-- Witness for C5 on a concrete script. -/
theorem ws_messages_keepalive_and_close_witness :
    ws_messages [WsEvent.msg "a", WsEvent.recvTimeoutPongOk, WsEvent.recvTimeoutPongLost,
        WsEvent.msg "b"] =
      { yielded := ["a"], pingsSent := 2, exitBy := some WsExit.pongTimeout,
        closed := true } := by
  have h := ws_messages_keepalive_and_close [WsEvent.msg "a", WsEvent.recvTimeoutPongOk]
    [WsEvent.msg "b"] (by
      intro e he
      simp at he
      rcases he with rfl | rfl
      · exact Or.inr ⟨"a", rfl⟩
      · exact Or.inl rfl)
  simpa [msgsOf, pingsOf] using h.1

end Hummingbot
